import Mathlib

/-!
Shallow embedding of the live-cache / streaming / indicator core of
`src/app.py` (a Flask stock-analysis app), together with proofs of the
spec's claims about it.

Modelling conventions:
* Python floats are modelled by `ℚ`; `round(x, 2)` (banker's rounding)
  by `round2`.
* A symbol string is a `List Char`; `str.upper().strip()` is `normalize`.
* The module-level `live_cache` dict is the `LiveCache` structure; the
  `charts` dict is a function `Sym → Option ChartEntry`.
* A provider fetch (`yf.Ticker(sym).history(...)`) is an oracle argument
  `Sym → Option _`; `none` models a raised exception, `some []` an empty
  dataframe.
* Wall-clock timestamps (`datetime.now().strftime(...)`) are opaque and
  modelled by `ℕ` tokens passed into each cycle.
-/

namespace TradeAgent

/-- A ticker/key symbol, i.e. the character data of a Python `str`. -/
abbrev Sym := List Char

/-- Round a rational to the nearest integer, ties to even: the semantics
of Python's builtin `round` on the represented value. -/
def roundHalfEven (x : ℚ) : ℤ :=
  let f : ℤ := ⌊x⌋
  let r : ℚ := x - (f : ℚ)
  if r < 1/2 then f
  else if 1/2 < r then f + 1
  else if f % 2 = 0 then f else f + 1

/-- Python `round(x, 2)`: round to 2 decimal places, ties to even. -/
def round2 (x : ℚ) : ℚ := ((roundHalfEven (x * 100) : ℚ)) / 100

/-- One entry of `live_cache["ticker"]`:
`{"symbol": sym, "price": cur, "change": chg, "changePct": pct}`. -/
structure TickerQuote where
  symbol : Sym
  price : ℚ
  change : ℚ
  changePct : ℚ
deriving DecidableEq

/-- One row of an intraday history dataframe: the index label and the
Open/High/Low/Close columns used by the chart paths. -/
structure Bar where
  time : ℕ
  opn : ℚ
  high : ℚ
  low : ℚ
  close : ℚ
deriving DecidableEq

/-- One entry of `live_cache["charts"]`, exactly the dict committed by
`_bg_update_chart` / the bootstrap path in `get_live_chart`. -/
structure ChartEntry where
  prices : List ℚ
  times : List ℕ
  price : ℚ
  opn : ℚ
  change : ℚ
  changePct : ℚ
  high : ℚ
  low : ℚ
  date : ℕ
  timestamp : ℕ
deriving DecidableEq

/-- The module-level `live_cache` dict (the lock is a no-op in this
sequential model; the claims quantify over interleavings of whole
committed operations, which is what the lock enforces). -/
structure LiveCache where
  ticker : List TickerQuote
  charts : Sym → Option ChartEntry
  timestamp : ℕ
  ticker_symbols : List Sym
  chart_symbol : Option Sym

/-- The initial `live_cache` literal from the source. -/
def initCache : LiveCache where
  ticker := []
  charts := fun _ => none
  timestamp := 0
  ticker_symbols :=
    ["AAPL".toList, "TSLA".toList, "GOOGL".toList, "MSFT".toList,
     "AMZN".toList, "META".toList, "NVDA".toList, "NFLX".toList]
  chart_symbol := none

/-! ### Symbol normalization (`.upper().strip()`) -/

/-- Python `str.strip()`, leading side: drop leading whitespace. -/
def lstrip (s : List Char) : List Char := s.dropWhile Char.isWhitespace

/-- Python `str.strip()`, trailing side: drop trailing whitespace. -/
def rstrip (s : List Char) : List Char :=
  (s.reverse.dropWhile Char.isWhitespace).reverse

/-- Python `str.strip()`: drop whitespace from both ends. -/
def stripEnds (s : List Char) : List Char := rstrip (lstrip s)

/-- `symbol.upper().strip()` as applied to every requested symbol that
reaches the focus register or the chart table. -/
def normalize (s : Sym) : Sym := stripEnds (s.map Char.toUpper)

/-! ### TickerRefresher (`_bg_update_ticker`) -/

/-- The per-symbol body of `_bg_update_ticker`: from the fetched
`h["Close"]` column (chronological), produce `(price, change, changePct)`
or drop the symbol. Mirrors the `len(h) >= 2` / `len(h) == 1` / `else
continue` cascade; `iloc[-1]`/`iloc[-2]` are the head of the reversed
list. When the rounded previous close is `0` the source's float division
yields an IEEE infinity; the rational model's `x / 0 = 0` stands in for
that case, and the theorems about this path assume `prev ≠ 0`. -/
def mkQuote (closes : List ℚ) : Option (ℚ × ℚ × ℚ) :=
  match closes.reverse with
  | [] => none
  | [c] => some (round2 c, 0, 0)
  | c :: p :: _ =>
      let cur := round2 c
      let prev := round2 p
      let chg := round2 (cur - prev)
      let pct := round2 (chg / prev * 100)
      some (cur, chg, pct)

/-- The `results` list built by one `_bg_update_ticker` cycle: iterate
the configured watchlist in order, skipping symbols whose fetch raised
(`fetch sym = none`) or returned no rows. -/
def bg_ticker_cycle (fetch : Sym → Option (List ℚ)) (syms : List Sym) :
    List TickerQuote :=
  syms.filterMap fun sym =>
    match fetch sym with
    | none => none
    | some closes =>
        (mkQuote closes).map fun q =>
          { symbol := sym, price := q.1, change := q.2.1, changePct := q.2.2 }

/-- One full `_bg_update_ticker` cycle including the commit: the source
unconditionally assigns `live_cache["ticker"] = results` and refreshes
`live_cache["timestamp"]`, even when `results` is empty. -/
def bg_update_ticker_cycle (fetch : Sym → Option (List ℚ)) (now : ℕ)
    (st : LiveCache) : LiveCache :=
  { st with ticker := bg_ticker_cycle fetch st.ticker_symbols, timestamp := now }

/-! ### ChartRefresher (`_bg_update_chart`) and the chart request path -/

/-- The fetch cascade shared by `_bg_update_chart` and the bootstrap in
`get_live_chart`: try 1d/1m history, fall back to 5d/5m when empty;
`none` means an exception was raised or both granularities were empty,
`some h` always carries a nonempty history. -/
def fetchCombined (f1 f5 : Sym → Option (List Bar)) (sym : Sym) :
    Option (List Bar) :=
  match f1 sym with
  | none => none
  | some [] =>
      match f5 sym with
      | none => none
      | some [] => none
      | some h => some h
  | some h => some h

/-- The chart dict committed for a nonempty history `h`: note that
`prices`/`times` are the raw `Close` column and index labels, while the
scalar fields are rounded. `opn = 0` would make the source's float
division produce an IEEE infinity; as in `mkQuote` the rational model
returns `0` there. -/
def mkChartEntry (h : List Bar) (now today : ℕ) : ChartEntry :=
  let cur := round2 ((h.getLast?.map Bar.close).getD 0)
  let opn := round2 ((h.head?.map Bar.opn).getD 0)
  let chg := round2 (cur - opn)
  let pct := round2 (chg / opn * 100)
  { prices := h.map Bar.close
    times := h.map Bar.time
    price := cur
    opn := opn
    change := chg
    changePct := pct
    high := round2 ((h.map Bar.high).max?.getD 0)
    low := round2 ((h.map Bar.low).min?.getD 0)
    date := today
    timestamp := now }

/-- `live_cache["charts"][sym] = e`: dict insert/replace. -/
def putChart (st : LiveCache) (sym : Sym) (e : ChartEntry) :
    Sym → Option ChartEntry :=
  fun s => if s = sym then some e else st.charts s

/-- One `_bg_update_chart` cycle: read the focus (`if sym:` treats both
`None` and the empty string as unset), fetch it, and on success commit
that symbol's entry; any failure leaves the cache untouched. -/
def bg_update_chart_cycle (f1 f5 : Sym → Option (List Bar)) (now today : ℕ)
    (st : LiveCache) : LiveCache :=
  match st.chart_symbol with
  | none => st
  | some sym =>
      if sym = [] then st
      else
        match fetchCombined f1 f5 sym with
        | none => st
        | some h => { st with charts := putChart st sym (mkChartEntry h now today) }

/-- The state effect of `get_live_chart`: normalize the requested
symbol, reject the empty symbol, set the focus register, and on a cache
miss bootstrap the entry with a direct fetch (errors and empty results
produce an HTTP error and leave the cache untouched). -/
def get_live_chart_op (f1 f5 : Sym → Option (List Bar)) (now today : ℕ)
    (raw : Sym) (st : LiveCache) : LiveCache :=
  let symbol := normalize raw
  if symbol = [] then st
  else
    let st1 := { st with chart_symbol := some symbol }
    match st1.charts symbol with
    | some _ => st1
    | none =>
        match fetchCombined f1 f5 symbol with
        | none => st1
        | some h => { st1 with charts := putChart st1 symbol (mkChartEntry h now today) }

/-- The state effect of opening `/stream/chart/<symbol>`: normalize and
set the focus register (no emptiness check in the source). -/
def stream_chart_subscribe (raw : Sym) (st : LiveCache) : LiveCache :=
  { st with chart_symbol := some (normalize raw) }

/-! ### Stream poll loops (`stream_ticker` / `stream_chart`) -/

/-- One iteration of the `stream_ticker` generator: given the
connection's `last_ts`, read the cache and emit
`iff ts != last_ts and data`; returns the new `last_ts` and the emitted
payload, if any. -/
def stream_ticker_poll (st : LiveCache) (last_ts : ℕ) :
    ℕ × Option (List TickerQuote × ℕ) :=
  let ts := st.timestamp
  let data := st.ticker
  if ts ≠ last_ts ∧ data ≠ [] then (ts, some (data, ts)) else (last_ts, none)

/-- One iteration of the `stream_chart` generator for `sym`: emit
`iff cached and cached["timestamp"] != last_ts`. -/
def stream_chart_poll (st : LiveCache) (sym : Sym) (last_ts : ℕ) :
    ℕ × Option ChartEntry :=
  match st.charts sym with
  | none => (last_ts, none)
  | some cached =>
      if cached.timestamp ≠ last_ts then (cached.timestamp, some cached)
      else (last_ts, none)

/-! ### Traces of cache-mutating operations -/

/-- The operations that mutate `live_cache`, each taken as one committed
step (the lock serializes the commits). -/
inductive Op where
  | tick (fetch : Sym → Option (List ℚ)) (now : ℕ)
  | chart (f1 f5 : Sym → Option (List Bar)) (now today : ℕ)
  | livechart (f1 f5 : Sym → Option (List Bar)) (now today : ℕ) (raw : Sym)
  | subscribe (raw : Sym)

/-- Apply one committed operation to the cache. -/
def stepOp : Op → LiveCache → LiveCache
  | .tick fetch now, st => bg_update_ticker_cycle fetch now st
  | .chart f1 f5 now today, st => bg_update_chart_cycle f1 f5 now today st
  | .livechart f1 f5 now today raw, st => get_live_chart_op f1 f5 now today raw st
  | .subscribe raw, st => stream_chart_subscribe raw st

/-- Run a trace of committed operations from a starting cache state. -/
def runOps (ops : List Op) (st : LiveCache) : LiveCache :=
  ops.foldl (fun s o => stepOp o s) st

/-! ### IndicatorEngine (`get_strategy` indicator math) -/

/-- `close.diff()` at position `j`, as consumed by the gain/loss
construction. Pandas' `diff` yields NaN at index 0, but
`delta.where(delta > 0, 0)` and `-delta.where(delta < 0, 0)` replace
that entry by `0` on both sides (NaN comparisons are False, and `where`
substitutes where the condition is False), so index 0 contributes a zero
gain and a zero loss. Here natural subtraction gives
`deltaAt xs 0 = xs[0] - xs[0] = 0`, which yields exactly those zeros. -/
def deltaAt (xs : List ℚ) (j : ℕ) : ℚ := xs.getD j 0 - xs.getD (j - 1) 0

/-- `delta.where(delta > 0, 0)` at `j` (`0` at index 0, see `deltaAt`). -/
def gainAt (xs : List ℚ) (j : ℕ) : ℚ := max (deltaAt xs j) 0

/-- `(-delta.where(delta < 0, 0))` at `j` (`0` at index 0). -/
def lossAt (xs : List ℚ) (j : ℕ) : ℚ := max (-(deltaAt xs j)) 0

/-- Sum of `f` on the trailing 14-sample window ending at `i`. -/
def winSum14 (f : ℕ → ℚ) (i : ℕ) : ℚ :=
  ((List.range 14).map fun k => f (i - k)).sum

/-- `gain.rolling(14).mean()` at `i` (value; definedness is tracked by
`rsi` itself: the gain series has no NaN — index 0 was coerced to `0` —
so the rolling mean is defined exactly when the 14-sample window is
full, i.e. for `13 ≤ i < len`). -/
def avgGain (xs : List ℚ) (i : ℕ) : ℚ := winSum14 (gainAt xs) i / 14

/-- `loss.rolling(14).mean()` at `i`. -/
def avgLoss (xs : List ℚ) (i : ℕ) : ℚ := winSum14 (lossAt xs) i / 14

/-- `rsi = 100 - (100 / (1 + gain/loss))` at position `i`, with `none`
where pandas produces NaN. Because `where` coerces the index-0 NaN diff
to a zero gain and loss, `rolling(14).mean()` produces its first value
at index 13, so exactly the first 13 positions are undefined. When
`avgLoss = 0` the source's float arithmetic yields `rs = +inf` and so
`rsi = 100` when `avgGain > 0`, and `rs = NaN`, `rsi = NaN` (undefined,
here `none`) when `avgGain = 0`; the rational model makes that case
split explicit. -/
def rsi (xs : List ℚ) (i : ℕ) : Option ℚ :=
  if 13 ≤ i ∧ i < xs.length then
    if avgLoss xs i = 0 then (if avgGain xs i = 0 then none else some 100)
    else some (100 - 100 / (1 + avgGain xs i / avgLoss xs i))
  else none

/-- `close.rolling(w).mean()` at `i`: defined once the window is full. -/
def rollingMean (w : ℕ) (xs : List ℚ) (i : ℕ) : Option ℚ :=
  if w ≤ i + 1 ∧ i < xs.length then
    some ((((List.range w).map fun k => xs.getD (i - k) 0).sum) / w)
  else none

/-- `sma20 = close.rolling(20).mean()` at `i`. -/
def sma20 (xs : List ℚ) (i : ℕ) : Option ℚ := rollingMean 20 xs i

/-- The square of `close.rolling(20).std()` at `i`: the trailing-20
sample variance (pandas default `ddof = 1`, so the divisor is 19). -/
def var20 (xs : List ℚ) (i : ℕ) : Option ℚ :=
  if 20 ≤ i + 1 ∧ i < xs.length then
    some ((((List.range 20).map fun k =>
      (xs.getD (i - k) 0
        - (((List.range 20).map fun k2 => xs.getD (i - k2) 0).sum) / 20) ^ 2).sum) / 19)
  else none

/-- `close.rolling(20).std()` at `i`: the square root lives in `ℝ`. -/
noncomputable def std20 (xs : List ℚ) (i : ℕ) : Option ℝ :=
  (var20 xs i).map fun v => Real.sqrt (v : ℝ)

/-- `upper_band = sma20 + (std20 * 2)` at `i`. -/
noncomputable def upper_band (xs : List ℚ) (i : ℕ) : Option ℝ :=
  match sma20 xs i, std20 xs i with
  | some m, some s => some ((m : ℝ) + s * 2)
  | _, _ => none

/-- `lower_band = sma20 - (std20 * 2)` at `i`. -/
noncomputable def lower_band (xs : List ℚ) (i : ℕ) : Option ℝ :=
  match sma20 xs i, std20 xs i with
  | some m, some s => some ((m : ℝ) - s * 2)
  | _, _ => none

/-- The Bollinger mid-band: in the source the middle band reported and
plotted is the `sma20` series itself. -/
def boll_mid (xs : List ℚ) (i : ℕ) : Option ℚ := sma20 xs i

/-! ### Signal classification (`get_strategy`) -/

/-- The three RSI classifications the endpoint can report. -/
inductive RsiSignal where
  | overbought
  | oversold
  | neutral
deriving DecidableEq

/-- `if current_rsi > 70 ... elif current_rsi < 30 ... else ...`. -/
def rsi_signal (r : ℚ) : RsiSignal :=
  if r > 70 then .overbought else if r < 30 then .oversold else .neutral

/-- The two MACD classifications the endpoint can report. -/
inductive MacdSignal where
  | bullish
  | bearish
deriving DecidableEq

/-- `if current_macd > current_signal ... else ...`. -/
def macd_signal (m s : ℚ) : MacdSignal :=
  if m > s then .bullish else .bearish

/-- The three Bollinger classifications the endpoint can report. -/
inductive BbSignal where
  | overbought
  | oversold
  | normal
deriving DecidableEq

/-- `if current_price >= curr_upper ... elif current_price <= curr_lower
... else ...`. -/
def bb_signal (price upper lower : ℚ) : BbSignal :=
  if price ≥ upper then .overbought
  else if price ≤ lower then .oversold
  else .normal

/-! ### Predicates used by the claims -/

/-- A symbol "succeeds" in a ticker cycle when its fetch neither raised
nor returned an empty history. -/
def fetchSucceeds (fetch : Sym → Option (List ℚ)) (s : Sym) : Bool :=
  match fetch s with
  | none => false
  | some [] => false
  | some (_ :: _) => true

/-- Every committed chart entry has as many prices as time labels. -/
def chartsWF (st : LiveCache) : Prop :=
  ∀ s e, st.charts s = some e → e.prices.length = e.times.length

/-- The focus register and every chart-table key are normalized (fixed
points of `normalize`). -/
def normWF (st : LiveCache) : Prop :=
  (∀ f, st.chart_symbol = some f → normalize f = f) ∧
  (∀ s e, st.charts s = some e → normalize s = s)

/-! ### Concrete data for the witnesses and the counterexample -/

/-- A provider in total outage: every fetch raises. -/
def failFetch : Sym → Option (List ℚ) := fun _ => none

/-- A cache state holding one previously committed quote at time 5. -/
def demoTicker : LiveCache :=
  { initCache with
      ticker := [{ symbol := "AAPL".toList, price := 10, change := 1, changePct := 10 }]
      timestamp := 5 }

/-- A ticker provider: two closes for AAPL, one for TSLA, outage for the
rest. -/
def demoFetch : Sym → Option (List ℚ) := fun s =>
  if s = "AAPL".toList then some [10, 12]
  else if s = "TSLA".toList then some [7]
  else none

/-- A three-symbol watchlist for the quote-formula witness. -/
def demoSyms : List Sym := ["AAPL".toList, "TSLA".toList, "GOOGL".toList]

/-- A one-bar intraday history. -/
def demoBar : Bar := { time := 0, opn := 10, high := 11, low := 9, close := 10 }

/-- The chart entry committed for `[demoBar]` at time 1, date 2. -/
def demoEntry : ChartEntry := mkChartEntry [demoBar] 1 2

/-- A cache state with TSLA focused and TSLA's chart entry cached. -/
def demoChartState : LiveCache :=
  { initCache with
      charts := fun s => if s = "TSLA".toList then some demoEntry else none
      chart_symbol := some "TSLA".toList }

/-- An intraday provider that returns `[demoBar]` for every symbol. -/
def df1 : Sym → Option (List Bar) := fun _ => some [demoBar]

/-- An intraday provider returning one bar for every symbol at 1d/1m. -/
def cf1 : Sym → Option (List Bar) := fun _ => some [{ time := 1, opn := 20, high := 21, low := 19, close := 20 }]

/-- An intraday provider that always raises (the 5d/5m fallback). -/
def cf5 : Sym → Option (List Bar) := fun _ => none

/-- A strictly increasing 16-sample price series. -/
def risingSeries : List ℚ :=
  [0, 1, 2, 3, 4, 5, 6, 7, 8, 9, 10, 11, 12, 13, 14, 15]

/-- A 15-sample series with down days (nonzero average loss at 14). -/
def choppySeries : List ℚ := [1, 2, 1, 2, 1, 2, 1, 2, 1, 2, 1, 2, 1, 2, 2]

/-- A 20-sample series whose trailing-20 sample variance is exactly 4. -/
def bollDemoSeries : List ℚ := [105, 95, 103, 97, 102, 98] ++ List.replicate 14 100

/-! ### Theorems -/

/-- C3: in every poll iteration of either streaming loop, an event is
emitted iff the cached timestamp for the stream's subject differs from
the connection's last sent timestamp and the cached value is non-empty;
and a second poll against an unchanged cache emits nothing. -/
theorem stream_emit_iff_changed (st : LiveCache) (sym : Sym) (l : ℕ) :
    ((stream_ticker_poll st l).2.isSome ↔ st.timestamp ≠ l ∧ st.ticker ≠ []) ∧
    ((stream_chart_poll st sym l).2.isSome ↔
      ∃ c, st.charts sym = some c ∧ c.timestamp ≠ l) ∧
    (stream_ticker_poll st (stream_ticker_poll st l).1).2 = none ∧
    (stream_chart_poll st sym (stream_chart_poll st sym l).1).2 = none := by
  refine ⟨?_, ?_, ?_, ?_⟩
  · by_cases h : st.timestamp ≠ l ∧ st.ticker ≠ [] <;>
      simp [stream_ticker_poll, h]
  · cases hc : st.charts sym with
    | none => simp [stream_chart_poll, hc]
    | some c =>
        by_cases h : c.timestamp ≠ l <;> simp [stream_chart_poll, hc, h]
  · by_cases h : st.timestamp ≠ l ∧ st.ticker ≠ []
    · rw [show (stream_ticker_poll st l).1 = st.timestamp by
        simp [stream_ticker_poll, h]]
      simp [stream_ticker_poll]
    · rw [show (stream_ticker_poll st l).1 = l by simp [stream_ticker_poll, h]]
      simp [stream_ticker_poll, h]
  · cases hc : st.charts sym with
    | none => simp [stream_chart_poll, hc]
    | some c =>
        by_cases h : c.timestamp ≠ l
        · rw [show (stream_chart_poll st sym l).1 = c.timestamp by
            simp [stream_chart_poll, hc, h]]
          simp [stream_chart_poll, hc]
        · rw [show (stream_chart_poll st sym l).1 = l by
            simp [stream_chart_poll, hc, h]]
          simp [stream_chart_poll, hc, h]

/-- C6: the quotes committed by a ticker cycle appear in exactly the
configured watchlist order, restricted to the symbols whose fetch
succeeded, for every provider behavior. -/
theorem ticker_order_matches_watchlist (fetch : Sym → Option (List ℚ))
    (syms : List Sym) :
    (bg_ticker_cycle fetch syms).map (fun q => q.symbol)
      = syms.filter (fun s => fetchSucceeds fetch s) := by
  induction syms with
  | nil => rfl
  | cons s rest ih =>
      unfold bg_ticker_cycle at ih ⊢
      rw [List.filterMap_cons, List.filter_cons]
      cases hf : fetch s with
      | none =>
          have hs2 : fetchSucceeds fetch s = false := by simp [fetchSucceeds, hf]
          simp [hf, hs2, ih]
      | some closes =>
          cases closes with
          | nil =>
              have hs2 : fetchSucceeds fetch s = false := by
                simp [fetchSucceeds, hf]
              have hm : mkQuote ([] : List ℚ) = none := rfl
              simp [hf, hs2, hm, ih]
          | cons c tl =>
              have hs2 : fetchSucceeds fetch s = true := by
                simp [fetchSucceeds, hf]
              obtain ⟨q, hq⟩ : ∃ q, mkQuote (c :: tl) = some q := by
                unfold mkQuote
                cases hr : (c :: tl).reverse with
                | nil => exact absurd (List.reverse_eq_nil_iff.mp hr) (by simp)
                | cons a t => cases t <;> exact ⟨_, rfl⟩
              simp [hf, hs2, hq, ih]

/-- C8: the exact signal-classification boundaries of the strategy
endpoint: RSI strictly above 70 is Overbought, strictly below 30 is
Oversold, otherwise Neutral; MACD strictly above signal is Bullish,
otherwise (ties included) Bearish; price at or above the upper band is
Overbought, at or below the lower band is Oversold, otherwise Normal. -/
theorem signal_classification_boundaries (r m s p u l : ℚ) :
    (rsi_signal r = .overbought ↔ 70 < r) ∧
    (rsi_signal r = .oversold ↔ r < 30) ∧
    (rsi_signal r = .neutral ↔ 30 ≤ r ∧ r ≤ 70) ∧
    (macd_signal m s = .bullish ↔ s < m) ∧
    (macd_signal m s = .bearish ↔ m ≤ s) ∧
    (bb_signal p u l = .overbought ↔ u ≤ p) ∧
    (bb_signal p u l = .oversold ↔ p < u ∧ p ≤ l) ∧
    (bb_signal p u l = .normal ↔ p < u ∧ l < p) := by
  unfold rsi_signal macd_signal bb_signal
  split_ifs <;> simp_all [not_lt, ge_iff_le] <;> linarith

/-- C1 counterexample: a cycle in which every watchlist fetch fails does
NOT leave the cached snapshot and timestamp unchanged — starting from a
cache holding one quote at time 5, a total-outage cycle at time 6
replaces the quotes by the empty list and advances the timestamp. -/
theorem ticker_all_fail_counterexample :
    demoTicker.ticker_symbols.all (fun s => (failFetch s).isNone) = true ∧
    demoTicker.ticker ≠ [] ∧ demoTicker.timestamp = 5 ∧
    (bg_update_ticker_cycle failFetch 6 demoTicker).ticker = [] ∧
    (bg_update_ticker_cycle failFetch 6 demoTicker).timestamp = 6 := by
  refine ⟨rfl, by simp [demoTicker], rfl, ?_, rfl⟩
  simp [bg_update_ticker_cycle, bg_ticker_cycle, failFetch]

/-- C1 amended: if, in one TickerRefresher cycle, every watchlist
symbol's fetch fails or returns no data, the cycle still commits: the
cached quote list is replaced by the empty list and the cached timestamp
is set to the cycle's commit time (so `asOf` advances and the previous
quotes are discarded; only the stream layer's non-empty guard hides the
empty snapshot from subscribers). -/
theorem ticker_all_fail_commits_empty (fetch : Sym → Option (List ℚ))
    (now : ℕ) (st : LiveCache)
    (h : ∀ s ∈ st.ticker_symbols, fetch s = none ∨ fetch s = some []) :
    (bg_update_ticker_cycle fetch now st).ticker = [] ∧
    (bg_update_ticker_cycle fetch now st).timestamp = now := by
  refine ⟨?_, rfl⟩
  unfold bg_update_ticker_cycle bg_ticker_cycle
  rw [List.filterMap_eq_nil_iff]
  intro s hs
  rcases h s hs with h1 | h1 <;> simp [h1, mkQuote]

/-- Witness for the amended C1 at a concrete outage. -/
theorem ticker_all_fail_commits_empty_witness :
    (bg_update_ticker_cycle failFetch 6 demoTicker).ticker = [] ∧
    (bg_update_ticker_cycle failFetch 6 demoTicker).timestamp = 6 :=
  ticker_all_fail_commits_empty failFetch 6 demoTicker (fun _ _ => Or.inl rfl)

/-- C2: the per-symbol quote committed by a ticker cycle: with at least
two closes `cur` (last) and `prev` (second-last), the quote carries
`price = round2 cur`, `change = round2 (round2 cur - round2 prev)` and
`changePct = round2 (change / round2 prev * 100)`; with exactly one
close, change and changePct are `0`; with a raised fetch or no data the
symbol is absent from the cycle's result. -/
theorem ticker_quote_formula (fetch : Sym → Option (List ℚ))
    (syms : List Sym) (sym : Sym) (hmem : sym ∈ syms) :
    (∀ closes c p rest, fetch sym = some closes →
       closes.reverse = c :: p :: rest → round2 p ≠ 0 →
       ({ symbol := sym, price := round2 c,
          change := round2 (round2 c - round2 p),
          changePct := round2 (round2 (round2 c - round2 p) / round2 p * 100) }
         : TickerQuote) ∈ bg_ticker_cycle fetch syms) ∧
    (∀ c, fetch sym = some [c] →
       ({ symbol := sym, price := round2 c, change := 0, changePct := 0 }
         : TickerQuote) ∈ bg_ticker_cycle fetch syms) ∧
    ((fetch sym = none ∨ fetch sym = some []) →
       ∀ q ∈ bg_ticker_cycle fetch syms, q.symbol ≠ sym) := by
  refine ⟨?_, ?_, ?_⟩
  · intro closes c p rest hf hrev hp
    unfold bg_ticker_cycle
    rw [List.mem_filterMap]
    refine ⟨sym, hmem, ?_⟩
    simp only [hf]
    unfold mkQuote
    rw [hrev]
    rfl
  · intro c hf
    unfold bg_ticker_cycle
    rw [List.mem_filterMap]
    refine ⟨sym, hmem, ?_⟩
    simp only [hf]
    rfl
  · intro hfail q hq
    unfold bg_ticker_cycle at hq
    rw [List.mem_filterMap] at hq
    obtain ⟨a, hamem, ha⟩ := hq
    intro hsym
    rcases h2 : fetch a with _ | closes
    · simp only [h2] at ha
      cases ha
    · rcases closes with _ | ⟨c, tl⟩
      · simp only [h2] at ha
        simp [mkQuote] at ha
      · simp only [h2] at ha
        rcases h3 : mkQuote (c :: tl) with _ | v
        · simp only [h3] at ha
          cases ha
        · simp only [h3, Option.map_some'] at ha
          injection ha with h4
          have hqa : q.symbol = a := by rw [← h4]
          rw [hqa] at hsym
          rw [hsym] at h2
          rcases hfail with h1 | h1 <;> rw [h1] at h2 <;> simp at h2

/-- Witness for C2 at a concrete provider: AAPL has two closes, TSLA
one, GOOGL raises. -/
theorem ticker_quote_formula_witness :
    ({ symbol := "AAPL".toList, price := round2 12,
       change := round2 (round2 12 - round2 10),
       changePct := round2 (round2 (round2 12 - round2 10) / round2 10 * 100) }
      : TickerQuote) ∈ bg_ticker_cycle demoFetch demoSyms ∧
    ({ symbol := "TSLA".toList, price := round2 7, change := 0, changePct := 0 }
      : TickerQuote) ∈ bg_ticker_cycle demoFetch demoSyms ∧
    (⟨"AAPL".toList, 12, 2, 20⟩ : TickerQuote).symbol ≠ "GOOGL".toList :=
  ⟨(ticker_quote_formula demoFetch demoSyms ("AAPL".toList) (by decide)).1
      [10, 12] 12 10 [] rfl rfl (by norm_num [round2, roundHalfEven]),
   (ticker_quote_formula demoFetch demoSyms ("TSLA".toList) (by decide)).2.1
      7 rfl,
   (ticker_quote_formula demoFetch demoSyms ("GOOGL".toList) (by decide)).2.2
      (Or.inl rfl) ⟨"AAPL".toList, 12, 2, 20⟩
      (by norm_num [bg_ticker_cycle, demoSyms, demoFetch, mkQuote, round2,
            roundHalfEven])⟩

/-- Record update of the focus register does not touch the chart table. -/
theorem charts_update_focus (st : LiveCache) (f : Option Sym) :
    ({ st with chart_symbol := f } : LiveCache).charts = st.charts := rfl

/-- Every committed chart entry pairs each price with one time label. -/
theorem mkChartEntry_len (h : List Bar) (now today : ℕ) :
    (mkChartEntry h now today).prices.length
      = (mkChartEntry h now today).times.length := by
  simp [mkChartEntry]

/-- Each committed operation preserves the prices/times length invariant. -/
theorem chartsWF_step (o : Op) (st : LiveCache) (hw : chartsWF st) :
    chartsWF (stepOp o st) := by
  have hput : ∀ st2 sym hist now today, chartsWF st2 →
      (∀ s e, putChart st2 sym (mkChartEntry hist now today) s = some e →
        e.prices.length = e.times.length) := by
    intro st2 sym hist now today hw2 s e he
    unfold putChart at he
    by_cases hs : s = sym
    · rw [if_pos hs] at he
      injection he with he2
      rw [← he2]
      exact mkChartEntry_len hist now today
    · rw [if_neg hs] at he
      exact hw2 s e he
  cases o with
  | tick fetch now => exact hw
  | subscribe raw => exact hw
  | chart f1 f5 now today =>
      show chartsWF (bg_update_chart_cycle f1 f5 now today st)
      unfold bg_update_chart_cycle
      split
      · exact hw
      · split
        · exact hw
        · split
          · exact hw
          · exact fun s e he => hput st _ _ now today hw s e he
  | livechart f1 f5 now today raw =>
      show chartsWF (get_live_chart_op f1 f5 now today raw st)
      simp only [get_live_chart_op]
      split
      · exact hw
      · split
        · exact hw
        · split
          · exact hw
          · exact fun s e he => hput _ (normalize raw) _ now today hw s e he

/-- The length invariant holds after any trace from any state satisfying
it. -/
theorem chartsWF_runOps (ops : List Op) (st : LiveCache) (hw : chartsWF st) :
    chartsWF (runOps ops st) := by
  induction ops generalizing st with
  | nil => exact hw
  | cons o rest ih => exact ih (stepOp o st) (chartsWF_step o st hw)

/-- C5: every chart entry ever committed to the cache — by the
ChartRefresher cycle or by the synchronous bootstrap path — satisfies
`prices.length = times.length`, at every point of the cache's lifetime
(i.e. after every trace of committed operations from the initial
state). -/
theorem chart_entry_lengths_invariant (ops : List Op) :
    chartsWF (runOps ops initCache) :=
  chartsWF_runOps ops initCache (fun s e he => by simp [initCache] at he)

/-- Witness for C5: a bootstrap write commits `demoEntry`, whose prices
and times have equal length by the invariant. -/
theorem chart_entry_lengths_invariant_witness :
    demoEntry.prices.length = demoEntry.times.length :=
  chart_entry_lengths_invariant [Op.livechart df1 cf5 1 2 ("TSLA".toList)]
    ("TSLA".toList) demoEntry rfl

/-- C4: switching the focused symbol (by opening a chart stream or by
requesting a live chart) leaves every other symbol's cached chart entry
unchanged, both immediately and after the ChartRefresher's next cycle,
and that next cycle depends only on the provider's behavior at the new
focus. -/
theorem focus_switch_frame (f1 f5 : Sym → Option (List Bar)) (now today : ℕ)
    (st : LiveCache) (rawNew : Sym) (S : Sym) (hS : S ≠ normalize rawNew) :
    (stream_chart_subscribe rawNew st).charts = st.charts ∧
    (stream_chart_subscribe rawNew st).chart_symbol = some (normalize rawNew) ∧
    (get_live_chart_op f1 f5 now today rawNew st).charts S = st.charts S ∧
    (bg_update_chart_cycle f1 f5 now today
        (stream_chart_subscribe rawNew st)).charts S = st.charts S ∧
    (∀ g1 g5, g1 (normalize rawNew) = f1 (normalize rawNew) →
       g5 (normalize rawNew) = f5 (normalize rawNew) →
       bg_update_chart_cycle g1 g5 now today (stream_chart_subscribe rawNew st)
         = bg_update_chart_cycle f1 f5 now today (stream_chart_subscribe rawNew st)) := by
  refine ⟨rfl, rfl, ?_, ?_, ?_⟩
  · simp only [get_live_chart_op]
    split
    · rfl
    · split
      · rfl
      · split
        · rfl
        · show putChart _ (normalize rawNew) _ S = st.charts S
          unfold putChart
          rw [if_neg hS]
  · simp only [bg_update_chart_cycle, stream_chart_subscribe]
    split
    · rfl
    · split
      · rfl
      · show putChart _ (normalize rawNew) _ S = st.charts S
        unfold putChart
        rw [if_neg hS]
  · intro g1 g5 hg1 hg5
    simp only [bg_update_chart_cycle, stream_chart_subscribe]
    have hfc : fetchCombined g1 g5 (normalize rawNew)
        = fetchCombined f1 f5 (normalize rawNew) := by
      unfold fetchCombined
      rw [hg1, hg5]
    rw [hfc]

/-- Witness for C4: with TSLA cached and focused, focusing MSFT leaves
TSLA's entry readable and unchanged through the subscribe, the live-chart
request, and the next refresher cycle. -/
theorem focus_switch_frame_witness :
    (stream_chart_subscribe ("MSFT".toList) demoChartState).charts
      = demoChartState.charts ∧
    (get_live_chart_op cf1 cf5 9 9 ("MSFT".toList) demoChartState).charts
        ("TSLA".toList) = demoChartState.charts ("TSLA".toList) ∧
    (bg_update_chart_cycle cf1 cf5 9 9
        (stream_chart_subscribe ("MSFT".toList) demoChartState)).charts
        ("TSLA".toList) = demoChartState.charts ("TSLA".toList) ∧
    bg_update_chart_cycle cf1 cf5 9 9
        (stream_chart_subscribe ("MSFT".toList) demoChartState)
      = bg_update_chart_cycle cf1 cf5 9 9
        (stream_chart_subscribe ("MSFT".toList) demoChartState) :=
  ⟨(focus_switch_frame cf1 cf5 9 9 demoChartState ("MSFT".toList)
      ("TSLA".toList) (by decide)).1,
   (focus_switch_frame cf1 cf5 9 9 demoChartState ("MSFT".toList)
      ("TSLA".toList) (by decide)).2.2.1,
   (focus_switch_frame cf1 cf5 9 9 demoChartState ("MSFT".toList)
      ("TSLA".toList) (by decide)).2.2.2.1,
   (focus_switch_frame cf1 cf5 9 9 demoChartState ("MSFT".toList)
      ("TSLA".toList) (by decide)).2.2.2.2 cf1 cf5 rfl rfl⟩

/-- C9: wherever the 20-sample rolling statistics are defined, the
Bollinger mid-band is the SMA(20) value, and
`lower_band ≤ SMA20 ≤ upper_band`, because the bands are the mid plus
and minus twice the (non-negative) trailing-20 sample standard
deviation. -/
theorem bollinger_bands_spec (xs : List ℚ) (i : ℕ)
    (h1 : 20 ≤ i + 1) (h2 : i < xs.length) :
    boll_mid xs i = sma20 xs i ∧
    ∃ m u l, sma20 xs i = some m ∧ upper_band xs i = some u ∧
      lower_band xs i = some l ∧ l ≤ (m : ℝ) ∧ (m : ℝ) ≤ u := by
  refine ⟨rfl, ?_⟩
  set m : ℚ := (((List.range 20).map fun k => xs.getD (i - k) 0).sum) / 20 with hmdef
  set v : ℚ := (((List.range 20).map fun k =>
      (xs.getD (i - k) 0
        - (((List.range 20).map fun k2 => xs.getD (i - k2) 0).sum) / 20) ^ 2).sum) / 19
    with hvdef
  have hm : sma20 xs i = some m := by
    unfold sma20 rollingMean
    rw [if_pos ⟨h1, h2⟩, hmdef]
    norm_num
  have hv : var20 xs i = some v := by
    unfold var20
    rw [if_pos ⟨h1, h2⟩]
  have hs : std20 xs i = some (Real.sqrt (v : ℝ)) := by
    unfold std20
    rw [hv]
    rfl
  have hu : upper_band xs i = some ((m : ℝ) + Real.sqrt (v : ℝ) * 2) := by
    unfold upper_band
    rw [hm, hs]
  have hl : lower_band xs i = some ((m : ℝ) - Real.sqrt (v : ℝ) * 2) := by
    unfold lower_band
    rw [hm, hs]
  refine ⟨m, _, _, hm, hu, hl, ?_, ?_⟩
  · have hnn := Real.sqrt_nonneg (v : ℝ)
    linarith
  · have hnn := Real.sqrt_nonneg (v : ℝ)
    linarith

/-- Witness for C9 at a concrete 20-sample series. -/
theorem bollinger_bands_spec_witness :
    boll_mid bollDemoSeries 19 = sma20 bollDemoSeries 19 ∧
    ∃ m u l, sma20 bollDemoSeries 19 = some m ∧
      upper_band bollDemoSeries 19 = some u ∧
      lower_band bollDemoSeries 19 = some l ∧ l ≤ (m : ℝ) ∧ (m : ℝ) ≤ u :=
  bollinger_bands_spec bollDemoSeries 19 (by norm_num)
    (by simp [bollDemoSeries])

/-- On a strictly increasing series, each in-range delta is positive. -/
theorem deltaAt_pos_of_chain (xs : List ℚ) (hchain : List.Chain' (· < ·) xs)
    (j : ℕ) (hj1 : 1 ≤ j) (hjlen : j < xs.length) : 0 < deltaAt xs j := by
  unfold deltaAt
  have h2 := List.chain'_iff_get.mp hchain (j - 1) (by omega)
  simp only [List.get_eq_getElem] at h2
  rw [List.getD_eq_getElem xs 0 hjlen,
    List.getD_eq_getElem xs 0 (show j - 1 < xs.length by omega)]
  simp only [Nat.sub_add_cancel hj1] at h2
  linarith

/-- C7 counterexample: position 13 — one of the first 14 positions — has
a defined RSI. On a strictly increasing 16-sample series the code's RSI
at index 13 is 100, not NaN, because `delta.where(delta > 0, 0)` coerces
the index-0 NaN diff to a zero gain and loss, so the 14-sample rolling
window is already full at index 13. This refutes "undefined for the
first 14 positions". -/
theorem rsi_warmup_counterexample :
    13 < 14 ∧ rsi risingSeries 13 ≠ none ∧ rsi risingSeries 13 = some 100 := by
  have h : rsi risingSeries 13 = some 100 := by
    norm_num [rsi, avgLoss, avgGain, winSum14, lossAt, gainAt, deltaAt,
      risingSeries, List.range_succ, max_def]
  refine ⟨by norm_num, ?_, h⟩
  rw [h]
  exact fun hc => Option.noConfusion hc

/-- C7 amended: RSI follows the rolling-mean gain/loss construction,
with the index-0 NaN diff coerced to a zero gain and zero loss by the
`where(...)` calls: it is undefined (NaN) exactly at the first 13
positions; where defined with a nonzero average loss it equals
`100 - 100 / (1 + avgGain / avgLoss)` over the trailing 14-sample
rolling means; and on a strictly increasing series every position from
index 13 on (where the 14-sample window is filled) yields RSI = 100
(the zero-average-loss policy). -/
theorem rsi_spec (xs : List ℚ) (i : ℕ) :
    (i < 13 → rsi xs i = none) ∧
    (13 ≤ i → i < xs.length → avgLoss xs i ≠ 0 →
      rsi xs i = some (100 - 100 / (1 + avgGain xs i / avgLoss xs i))) ∧
    (List.Chain' (· < ·) xs → 13 ≤ i → i < xs.length → rsi xs i = some 100) := by
  refine ⟨?_, ?_, ?_⟩
  · intro hi
    unfold rsi
    rw [if_neg]
    intro hcon
    omega
  · intro hi hlen hl
    unfold rsi
    rw [if_pos ⟨hi, hlen⟩, if_neg hl]
  · intro hchain hi hlen
    have hloss0 : ∀ j, j < xs.length → lossAt xs j = 0 := by
      intro j hj
      rcases Nat.eq_zero_or_pos j with rfl | hj1
      · simp [lossAt, deltaAt]
      · have hd := deltaAt_pos_of_chain xs hchain j hj1 hj
        unfold lossAt
        rw [max_eq_right (by linarith)]
    have hloss : avgLoss xs i = 0 := by
      unfold avgLoss winSum14
      have hz : ((List.range 14).map fun k => lossAt xs (i - k)).sum = 0 := by
        apply List.sum_eq_zero
        intro x hx
        rw [List.mem_map] at hx
        obtain ⟨k, hk, rfl⟩ := hx
        exact hloss0 (i - k) (by omega)
      rw [hz]
      norm_num
    have hgain : avgGain xs i ≠ 0 := by
      have hpos : 0 < avgGain xs i := by
        unfold avgGain winSum14
        apply div_pos _ (by norm_num)
        rw [show List.range 14 = 0 :: (List.range 13).map Nat.succ from
          List.range_succ_eq_map 13, List.map_cons, List.sum_cons]
        have h1 : 0 < gainAt xs (i - 0) := by
          have hd := deltaAt_pos_of_chain xs hchain (i - 0) (by omega) (by omega)
          unfold gainAt
          rw [max_eq_left (le_of_lt hd)]
          exact hd
        have h2 : 0 ≤ (((List.range 13).map Nat.succ).map
            fun k => gainAt xs (i - k)).sum := by
          apply List.sum_nonneg
          intro x hx
          rw [List.mem_map] at hx
          obtain ⟨k, hk, rfl⟩ := hx
          exact le_max_right _ _
        linarith
      exact ne_of_gt hpos
    unfold rsi
    rw [if_pos ⟨hi, hlen⟩, if_pos hloss, if_neg hgain]

/-- Witness for the amended C7: warm-up position, choppy series with
nonzero average loss, and a strictly increasing series reaching
RSI = 100 at index 13, the first defined position. -/
theorem rsi_spec_witness :
    rsi risingSeries 5 = none ∧
    rsi choppySeries 14
      = some (100 - 100 / (1 + avgGain choppySeries 14 / avgLoss choppySeries 14)) ∧
    rsi risingSeries 13 = some 100 :=
  ⟨(rsi_spec risingSeries 5).1 (by norm_num),
   (rsi_spec choppySeries 14).2.1 (by norm_num) (by simp [choppySeries])
     (by norm_num [avgLoss, winSum14, lossAt, deltaAt, choppySeries,
            List.range_succ, max_def]),
   (rsi_spec risingSeries 13).2.2
     (by norm_num [risingSeries, List.chain'_cons])
     (by norm_num) (by simp [risingSeries])⟩

/-- Uppercasing is idempotent on characters. -/
theorem toUpper_toUpper (c : Char) : c.toUpper.toUpper = c.toUpper := by
  by_cases h : c.toNat ≥ 97 ∧ c.toNat ≤ 122
  · have h1 : c.toUpper = Char.ofNat (c.toNat - 32) := by
      simp only [Char.toUpper]
      rw [if_pos h]
    have hv : (c.toNat - 32).isValidChar := Or.inl (by omega)
    have ht : (Char.ofNat (c.toNat - 32)).toNat = c.toNat - 32 := by
      unfold Char.ofNat
      rw [dif_pos hv]
      rfl
    rw [h1]
    simp only [Char.toUpper]
    rw [if_neg (by rw [ht]; omega)]
  · have h1 : c.toUpper = c := by
      simp only [Char.toUpper]
      rw [if_neg h]
    rw [h1, h1]

/-- Dropping a satisfied run twice equals dropping it once. -/
theorem dropWhile_dropWhile (p : Char → Bool) (l : List Char) :
    (l.dropWhile p).dropWhile p = l.dropWhile p := by
  cases hd : l.dropWhile p with
  | nil => rfl
  | cons a t =>
      have hpa := List.head?_dropWhile_not p l
      rw [hd] at hpa
      simp only [List.head?_cons] at hpa
      rw [List.dropWhile_cons_of_neg (by simp [hpa])]

/-- The right strip keeps a prefix of its input. -/
theorem rstrip_append (l : List Char) : ∃ s, l = rstrip l ++ s := by
  refine ⟨(l.reverse.takeWhile Char.isWhitespace).reverse, ?_⟩
  unfold rstrip
  rw [← List.reverse_append, List.takeWhile_append_dropWhile, List.reverse_reverse]

/-- A non-empty fully stripped list starts with a non-whitespace
character. -/
theorem stripEnds_head (l : List Char) :
    stripEnds l = [] ∨
      ∃ a t, stripEnds l = a :: t ∧ Char.isWhitespace a = false := by
  cases hr : stripEnds l with
  | nil => exact Or.inl rfl
  | cons b u =>
      right
      refine ⟨b, u, rfl, ?_⟩
      obtain ⟨s, hs⟩ := rstrip_append (lstrip l)
      have hs2 : lstrip l = b :: (u ++ s) := by
        rw [show rstrip (lstrip l) = stripEnds l from rfl, hr] at hs
        simpa using hs
      have hpa := List.head?_dropWhile_not Char.isWhitespace l
      rw [show l.dropWhile Char.isWhitespace = lstrip l from rfl, hs2] at hpa
      simpa using hpa

/-- Stripping both ends is idempotent. -/
theorem stripEnds_stripEnds (l : List Char) :
    stripEnds (stripEnds l) = stripEnds l := by
  have h1 : lstrip (stripEnds l) = stripEnds l := by
    rcases stripEnds_head l with h | ⟨a, t, h2, h3⟩
    · rw [h]; rfl
    · rw [h2]
      unfold lstrip
      rw [List.dropWhile_cons_of_neg (by simp [h3])]
  show rstrip (lstrip (stripEnds l)) = stripEnds l
  rw [h1]
  show ((((lstrip l).reverse.dropWhile Char.isWhitespace).reverse).reverse.dropWhile
      Char.isWhitespace).reverse = stripEnds l
  rw [List.reverse_reverse, dropWhile_dropWhile]
  rfl

/-- Members of a stripped list are members of the original list. -/
theorem mem_stripEnds (u : List Char) (x : Char) (hx : x ∈ stripEnds u) :
    x ∈ u := by
  unfold stripEnds rstrip lstrip at hx
  rw [List.mem_reverse] at hx
  have hx2 := (List.dropWhile_sublist Char.isWhitespace).subset hx
  rw [List.mem_reverse] at hx2
  exact (List.dropWhile_sublist Char.isWhitespace).subset hx2

/-- A map that fixes every member of a list fixes the list. -/
theorem map_eq_self_of_mem (l : List Char) (f : Char → Char)
    (h : ∀ x ∈ l, f x = x) : l.map f = l := by
  induction l with
  | nil => rfl
  | cons a t ih =>
      rw [List.map_cons, h a (by simp), ih (fun x hx => h x (by simp [hx]))]

/-- `normalize` is idempotent: the normal forms are exactly its fixed
points. -/
theorem normalize_normalize (s : Sym) : normalize (normalize s) = normalize s := by
  unfold normalize
  have hmap : (stripEnds (s.map Char.toUpper)).map Char.toUpper
      = stripEnds (s.map Char.toUpper) := by
    apply map_eq_self_of_mem
    intro x hx
    have hx2 := mem_stripEnds _ x hx
    rw [List.mem_map] at hx2
    obtain ⟨y, _, rfl⟩ := hx2
    exact toUpper_toUpper y
  rw [hmap]
  exact stripEnds_stripEnds _

/-- Each committed operation keeps the focus register and all chart keys
normalized. -/
theorem normWF_step (o : Op) (st : LiveCache) (hw : normWF st) :
    normWF (stepOp o st) := by
  obtain ⟨hwf, hwc⟩ := hw
  cases o with
  | tick fetch now => exact ⟨hwf, hwc⟩
  | subscribe raw =>
      refine ⟨?_, hwc⟩
      intro f hf
      have h2 : some (normalize raw) = some f := hf
      injection h2 with h3
      rw [← h3]
      exact normalize_normalize raw
  | chart f1 f5 now today =>
      show normWF (bg_update_chart_cycle f1 f5 now today st)
      unfold bg_update_chart_cycle
      cases hcs : st.chart_symbol with
      | none => exact ⟨hwf, hwc⟩
      | some sym =>
          show normWF (if sym = [] then st else
            match fetchCombined f1 f5 sym with
            | none => st
            | some h =>
                { ticker := st.ticker,
                  charts := putChart st sym (mkChartEntry h now today),
                  timestamp := st.timestamp,
                  ticker_symbols := st.ticker_symbols,
                  chart_symbol := some sym })
          by_cases he : sym = []
          · rw [if_pos he]; exact ⟨hwf, hwc⟩
          · rw [if_neg he]
            cases hfc : fetchCombined f1 f5 sym with
            | none => exact ⟨hwf, hwc⟩
            | some hist =>
                refine ⟨?_, ?_⟩
                · intro f hf
                  have h2 : some sym = some f := hf
                  injection h2 with h3
                  rw [← h3]
                  exact hwf sym hcs
                intro s e2 he2
                have he3 : putChart st sym (mkChartEntry hist now today) s
                    = some e2 := he2
                unfold putChart at he3
                by_cases hs : s = sym
                · rw [hs]
                  exact hwf sym hcs
                · rw [if_neg hs] at he3
                  exact hwc s e2 he3
  | livechart f1 f5 now today raw =>
      show normWF (get_live_chart_op f1 f5 now today raw st)
      simp only [get_live_chart_op]
      have hw1 : normWF { st with chart_symbol := some (normalize raw) } := by
        refine ⟨?_, hwc⟩
        intro f hf
        have h2 : some (normalize raw) = some f := hf
        injection h2 with h3
        rw [← h3]
        exact normalize_normalize raw
      split
      · exact ⟨hwf, hwc⟩
      · split
        · exact hw1
        · split
          · exact hw1
          · refine ⟨hw1.1, ?_⟩
            intro s e2 he2
            have he3 : putChart { st with chart_symbol := some (normalize raw) }
                (normalize raw) _ s = some e2 := he2
            unfold putChart at he3
            by_cases hs : s = normalize raw
            · rw [hs]
              exact normalize_normalize raw
            · rw [if_neg hs] at he3
              exact hwc s e2 he3

/-- The normalization invariant is preserved along any trace. -/
theorem normWF_runOps (ops : List Op) (st : LiveCache) (hw : normWF st) :
    normWF (runOps ops st) := by
  induction ops generalizing st with
  | nil => exact hw
  | cons o rest ih => exact ih (stepOp o st) (normWF_step o st hw)

/-- C10: every public operation that writes the focus register or the
chart table normalizes the requested symbol first, so after any trace
the focus and all chart keys are normalized symbols; and requests for
"tsla" and "TSLA" address the same focus target and the same cache
entry (the two operations coincide as state transformers). -/
theorem normalized_keys_invariant :
    (∀ ops, normWF (runOps ops initCache)) ∧
    (∀ st, stream_chart_subscribe ("tsla".toList) st
        = stream_chart_subscribe ("TSLA".toList) st) ∧
    (∀ f1 f5 now today st,
       get_live_chart_op f1 f5 now today ("tsla".toList) st
         = get_live_chart_op f1 f5 now today ("TSLA".toList) st) := by
  have hnorm : normalize ("tsla".toList) = normalize ("TSLA".toList) := by decide
  refine ⟨?_, ?_, ?_⟩
  · intro ops
    refine normWF_runOps ops initCache ⟨?_, ?_⟩
    · intro f hf
      simp [initCache] at hf
    · intro s e he
      simp [initCache] at he
  · intro st
    unfold stream_chart_subscribe
    rw [hnorm]
  · intro f1 f5 now today st
    simp only [get_live_chart_op, hnorm]

/-- Witness for C10: subscribing with a raw `"  tsla "` leaves the focus
register holding the normalized `"TSLA"`, which is a `normalize` fixed
point by the invariant. -/
theorem normalized_keys_invariant_witness :
    normalize ("TSLA".toList) = "TSLA".toList ∧
    stream_chart_subscribe ("tsla".toList) initCache
      = stream_chart_subscribe ("TSLA".toList) initCache :=
  ⟨(normalized_keys_invariant.1 [Op.subscribe ("  tsla ".toList)]).1
      ("TSLA".toList) (by decide),
   normalized_keys_invariant.2.1 initCache⟩

end TradeAgent
